import Mathlib

/-!
Formal model of the Caffe serving-session adapter
(tensorflow_serving/servables/caffe/caffe_serving_session.cc).

The C++ adapter owns one loaded caffe network, two name-to-index blob
maps, and a grow-on-demand batch capacity.  We embed the adapter state
shallowly: blobs and tensors carry explicit shape lists and flat data
lists; external engine operations (the forward pass and the internal
shape propagation of the net after input blobs are resized) are passed
in as function parameters, since they belong to the caffe library and
not to the adapter code under verification.  Machine integers are
modelled as Nat (dimension sizes, indices) and Int (declared blob
shapes, which the engine stores as signed ints).  Every error the
adapter produces is a tensorflow InvalidArgument status; the error type
below records the distinct construction sites.
-/

namespace CaffeServing

variable {α : Type} {π : Type}

/-- Blob: one named numeric storage region of the caffe net.  The shape
is the declared dimension list (signed, as in the engine) and data the
flat storage contents. -/
structure Blob (α : Type) where
  shape : List Int
  data : List α
deriving DecidableEq

instance : Inhabited (Blob α) := ⟨⟨[], []⟩⟩

/-- Tensor: a caller-facing tensorflow tensor, a dimension list plus
flat element data.  Tensorflow dimensions are non-negative, so Nat. -/
structure Tensor (α : Type) where
  dims : List Nat
  data : List α
deriving DecidableEq

instance : Inhabited (Tensor α) := ⟨⟨[], []⟩⟩

/-- Net: the loaded caffe network as seen by the adapter: an ordered
blob list, the parallel name list, and the declared input and output
blob index lists. -/
structure Net (α : Type) where
  blob_names : List String
  blobs : List (Blob α)
  input_blob_indices : List Nat
  output_blob_indices : List Nat
deriving DecidableEq

/-- Status code of adapter errors.  Every error construction site in
the adapter source calls errors InvalidArgument, so every RunError maps
to invalidArgument. -/
inductive StatusCode where
  | ok
  | invalidArgument
deriving DecidableEq

/-- One constructor per error construction site in the adapter
source. -/
inductive RunError where
  | targetNodesUnsupported
  | wrongInputCount (expected got : Nat)
  | couldNotDetermineBatch
  | invalidBatchSize (b : Nat)
  | unknownInput (name : String)
  | inputBatchMismatch (name : String)
  | unknownOutput (name : String)
  | reshapeBatchTooSmall
  | weightLoadFailed (file : String)
deriving DecidableEq

/-- Status kind carried by an adapter error: always InvalidArgument in
this source file. -/
def RunError.code : RunError → StatusCode := fun _ => .invalidArgument

/-- Errors raised by the output-lookup phase, which in the source runs
only after the forward pass. -/
def RunError.isOutputLookup : RunError → Bool
  | .unknownOutput _ => true
  | _ => false

/-- Errors raised before the input-copy loop begins (target check,
input-count check, batch-size determination, reshape). -/
def RunError.isPreCopy : RunError → Bool
  | .targetNodesUnsupported => true
  | .wrongInputCount _ _ => true
  | .couldNotDetermineBatch => true
  | .invalidBatchSize _ => true
  | .reshapeBatchTooSmall => true
  | _ => false

/-- BatchSizeOf: the initial batch-capacity guess of the adapter.  For
every declared input blob whose shape has more than one dimension and a
positive leading dimension, that leading dimension is a candidate; the
running maximum starts at 1.  Mirrors BatchSizeOf in the source. -/
def BatchSizeOf (net : Net α) : Nat :=
  net.input_blob_indices.foldl
    (fun x idx =>
      let shape := (net.blobs.getD idx default).shape
      if 1 < shape.length ∧ 0 < shape.headD 0 then Nat.max x (shape.headD 0).toNat else x)
    1

/-- Association-list lookup with the first-match semantics of
unordered_map find. -/
def mapFind : List (String × Nat) → String → Option Nat
  | [], _ => none
  | (k, v) :: rest, key => if k = key then some v else mapFind rest key

/-- emplace of unordered_map: inserting an existing key is a no-op. -/
def emplace (m : List (String × Nat)) (key : String) (v : Nat) : List (String × Nat) :=
  match mapFind m key with
  | some _ => m
  | none => m ++ [(key, v)]

/-- Build one name-to-index blob map from the blob name list and one
declared index list, as in the session constructor loop. -/
def buildBlobMap (names : List String) (indices : List Nat) : List (String × Nat) :=
  indices.foldl (fun m idx => emplace m (names.getD idx "") idx) []

/-- Adapter state: the owned net, the two immutable blob maps, and the
current batch capacity. -/
structure CaffeServingSession (α : Type) where
  net_ : Net α
  input_blob_map_ : List (String × Nat)
  output_blob_map_ : List (String × Nat)
  batch_size_ : Nat
deriving DecidableEq

/-- Session construction: build both blob maps from the net and seed
the capacity with the BatchSizeOf estimate. -/
def mkSession (net : Net α) : CaffeServingSession α :=
  { net_ := net
  , input_blob_map_ := buildBlobMap net.blob_names net.input_blob_indices
  , output_blob_map_ := buildBlobMap net.blob_names net.output_blob_indices
  , batch_size_ := BatchSizeOf net }

/-- Element count of a declared shape, as the engine computes it
(product of the dimensions). -/
def shapeCount (shape : List Int) : Nat :=
  (shape.map Int.toNat).prod

/-- Resize flat storage to a given element count: keep the prefix that
still fits, extend with default elements when growing. -/
def resizeData [Inhabited α] (data : List α) (n : Nat) : List α :=
  data.take n ++ List.replicate (n - data.length) default

/-- Blob Reshape: install the new shape and resize the storage to the
new element count. -/
def blobReshape [Inhabited α] (blob : Blob α) (newShape : List Int) : Blob α :=
  { shape := newShape, data := resizeData blob.data (shapeCount newShape) }

/-- channels of a caffe blob: the second shape entry, or 1 for blobs of
fewer than two axes (legacy accessor semantics). -/
def Blob.channels (blob : Blob α) : Int :=
  if 1 < blob.shape.length then blob.shape.getD 1 1 else 1

/-- Per-blob step of the input-reshape loop: a blob qualifies when its
shape has more than one dimension and a positive leading dimension; a
qualifying blob gets its leading dimension replaced by the requested
batch and is resized in place. -/
def reshapeStep [Inhabited α] (b : Nat) (blob : Blob α) : Blob α :=
  if 1 < blob.shape.length ∧ 0 < blob.shape.headD 0 then
    blobReshape blob ((b : Int) :: blob.shape.tail)
  else blob

/-- The input-blob loop of Reshape: walk the declared input indices and
apply the per-blob step at each one. -/
def netReshapeInputs [Inhabited α] (net : Net α) (b : Nat) : Net α :=
  let newBlobs :=
    net.input_blob_indices.foldl
      (fun blobs idx =>
        let blob := blobs.getD idx default
        if 1 < blob.shape.length ∧ 0 < blob.shape.headD 0 then
          blobs.set idx (blobReshape blob ((b : Int) :: blob.shape.tail))
        else blobs)
      net.blobs
  { net with blobs := newBlobs }

/-- Session Reshape.  The propagate parameter stands for the engine
call net Reshape, which re-derives downstream blob shapes from the new
input shapes.  Mirrors CaffeServingSession Reshape in the source: a
zero batch is an InvalidArgument error (the argument is unsigned, so at
most the value zero fails the at-least-1 test), an equal batch is a
no-op, otherwise resize every qualifying input blob, propagate, and
record the new capacity. -/
def CaffeServingSession.Reshape [Inhabited α] (propagate : Net α → Net α)
    (s : CaffeServingSession α) (batch_size : Nat) :
    Except RunError Unit × CaffeServingSession α :=
  if batch_size = 0 then (.error .reshapeBatchTooSmall, s)
  else if s.batch_size_ = batch_size then (.ok (), s)
  else
    let net1 := netReshapeInputs s.net_ batch_size
    let net2 := propagate net1
    (.ok (), { s with net_ := net2, batch_size_ := batch_size })

/-- Overwrite the leading elements of dst with src, as std copy_n does
with the tensor view into the blob storage; the blob length never
changes. -/
def copy_n (src dst : List α) : List α :=
  src.take dst.length ++ dst.drop src.length

/-- The input-copy loop of Run: for each request input, look its name
up in the input blob map (unknown name is an error), check its leading
dimension against the determined batch size (mismatch is an error), and
otherwise overwrite the leading elements of the bound blob.  Returns
the blob list after every copy that happened, plus the first error if
any. -/
def copyInputs (m : List (String × Nat)) (b : Nat) :
    List (String × Tensor α) → List (Blob α) → List (Blob α) × Option RunError
  | [], blobs => (blobs, none)
  | (name, t) :: rest, blobs =>
    match mapFind m name with
    | none => (blobs, some (.unknownInput name))
    | some idx =>
      if t.dims.headD 0 ≠ b then (blobs, some (.inputBatchMismatch name))
      else
        let blob := blobs.getD idx default
        copyInputs m b rest (blobs.set idx { blob with data := copy_n t.data blob.data })

/-- The caller-facing tensor built for one output blob: shape
(batchSize, channels), populated with the leading batchSize * channels
elements of the blob storage. -/
def outputTensorOf (blob : Blob α) (b : Nat) : Tensor α :=
  { dims := [b, blob.channels.toNat]
  , data := blob.data.take (b * blob.channels.toNat) }

/-- The output-collection loop of Run: look each requested name up in
the output blob map (unknown name is an error) and emit the
corresponding output tensor, preserving request order. -/
def collectOutputs (m : List (String × Nat)) (blobs : List (Blob α)) (b : Nat) :
    List String → Except RunError (List (Tensor α))
  | [] => .ok []
  | name :: rest =>
    match mapFind m name with
    | none => .error (.unknownOutput name)
    | some idx =>
      match collectOutputs m blobs b rest with
      | .error e => .error e
      | .ok ts => .ok (outputTensorOf (blobs.getD idx default) b :: ts)

/-- Everything one Run call produces: the returned status with output
tensors, the adapter state after the call (including every blob write
that happened before any abort), and whether the forward pass ran. -/
structure RunOutcome (α : Type) where
  result : Except RunError (List (Tensor α))
  state : CaffeServingSession α
  forwardRan : Bool

instance [DecidableEq α] : DecidableEq (Except RunError (List (Tensor α))) := fun x y =>
  match x, y with
  | .error e1, .error e2 =>
    if h : e1 = e2 then .isTrue (by rw [h]) else .isFalse (by simp [h])
  | .error _, .ok _ => .isFalse (by simp)
  | .ok _, .error _ => .isFalse (by simp)
  | .ok v1, .ok v2 =>
    if h : v1 = v2 then .isTrue (by rw [h]) else .isFalse (by simp [h])

instance [DecidableEq α] : DecidableEq (RunOutcome α) := fun x y =>
  match x, y with
  | ⟨r1, s1, f1⟩, ⟨r2, s2, f2⟩ =>
    if h : r1 = r2 ∧ s1 = s2 ∧ f1 = f2 then
      .isTrue (by obtain ⟨h1, h2, h3⟩ := h; rw [h1, h2, h3])
    else
      .isFalse (by
        intro hc
        cases hc
        exact h ⟨rfl, rfl, rfl⟩)

/-- The copy-forward-collect tail of Run, entered once capacity is
known to suffice: copy every request input into its bound blob
(aborting at the first unknown name or leading-dimension mismatch, with
every earlier copy already applied), run the forward pass, and collect
the requested outputs in order. -/
def runCopyStage [Inhabited α] (fwd : Net α → Net α) (s1 : CaffeServingSession α)
    (inputs : List (String × Tensor α)) (output_tensor_names : List String)
    (batch_size : Nat) : RunOutcome α :=
  match copyInputs s1.input_blob_map_ batch_size inputs s1.net_.blobs with
  | (blobs1, some e) =>
    ⟨.error e, { s1 with net_ := { s1.net_ with blobs := blobs1 } }, false⟩
  | (blobs1, none) =>
    let net2 := fwd { s1.net_ with blobs := blobs1 }
    let s2 := { s1 with net_ := net2 }
    match collectOutputs s2.output_blob_map_ net2.blobs batch_size
            output_tensor_names with
    | .error e => ⟨.error e, s2, true⟩
    | .ok ts => ⟨.ok ts, s2, true⟩

/-- The capacity-growth step of Run followed by the copy stage: Reshape
is invoked exactly when the determined batch size exceeds the current
capacity, and a Reshape error aborts the call. -/
def runValidated [Inhabited α] (fwd propagate : Net α → Net α)
    (s : CaffeServingSession α) (inputs : List (String × Tensor α))
    (output_tensor_names : List String) (batch_size : Nat) : RunOutcome α :=
  match (if s.batch_size_ < batch_size
         then s.Reshape propagate batch_size
         else (.ok (), s)) with
  | (.error e, s1) => ⟨.error e, s1, false⟩
  | (.ok _, s1) => runCopyStage fwd s1 inputs output_tensor_names batch_size

/-- Session Run.  The fwd parameter stands for the engine forward pass.
Mirrors CaffeServingSession Run in the source, step by step: reject
target nodes; reject too few inputs; determine the batch size from the
first input only (rank at least 2, leading dimension at least 1); then
grow capacity if needed, copy inputs, run forward, collect outputs. -/
def CaffeServingSession.Run [Inhabited α] (fwd propagate : Net α → Net α)
    (s : CaffeServingSession α) (inputs : List (String × Tensor α))
    (output_tensor_names target_node_names : List String) : RunOutcome α :=
  if 0 < target_node_names.length then
    ⟨.error .targetNodesUnsupported, s, false⟩
  else if inputs.length = 0 ∨ inputs.length < s.input_blob_map_.length then
    ⟨.error (.wrongInputCount s.input_blob_map_.length inputs.length), s, false⟩
  else if (inputs.headD default).2.dims.length < 2 then
    ⟨.error .couldNotDetermineBatch, s, false⟩
  else
    let batch_size := (inputs.headD default).2.dims.headD 0
    if batch_size < 1 then ⟨.error (.invalidBatchSize batch_size), s, false⟩
    else runValidated fwd propagate s inputs output_tensor_names batch_size

/-- Weight loading.  Reading and parsing the trained-parameter file is
done by the caffe library; its outcome enters the model as an Option.
Copying matching layers into the net is likewise an engine operation,
passed as a parameter.  Mirrors CopyTrainedLayersFromBinaryProto in the
source: a failed read returns InvalidArgument before any copy. -/
def CaffeServingSession.CopyTrainedLayersFromBinaryProto
    (parsed : Option π) (copyLayers : Net α → π → Net α)
    (s : CaffeServingSession α) (trained_filename : String) :
    Except RunError Unit × CaffeServingSession α :=
  match parsed with
  | none => (.error (.weightLoadFailed trained_filename), s)
  | some p => (.ok (), { s with net_ := copyLayers s.net_ p })

/-- One Run request: the inputs, the requested output names, and the
target node names. -/
structure RunCall (α : Type) where
  inputs : List (String × Tensor α)
  output_tensor_names : List String
  target_node_names : List String

/-- Fold a sequence of Run calls over an adapter state, keeping the
state each call leaves behind. -/
def runSeq [Inhabited α] (fwd propagate : Net α → Net α)
    (s : CaffeServingSession α) (calls : List (RunCall α)) : CaffeServingSession α :=
  calls.foldl
    (fun st c =>
      (st.Run fwd propagate c.inputs c.output_tensor_names c.target_node_names).state)
    s

/-- The batch size a Run call determines when it passes the validation
steps that precede the reshape step, mirroring the checks of Run; none
when the call is rejected before reaching the reshape step.  Depends
only on the request and the (immutable) input-map size. -/
def determinedBatch (mapLen : Nat) (inputs : List (String × Tensor α))
    (target_node_names : List String) : Option Nat :=
  if 0 < target_node_names.length then none
  else if inputs.length = 0 ∨ inputs.length < mapLen then none
  else if (inputs.headD default).2.dims.length < 2 then none
  else
    let batch_size := (inputs.headD default).2.dims.headD 0
    if batch_size < 1 then none else some batch_size

/-- The batch sizes determined by the calls of a sequence that reach
the reshape step. -/
def determinedBatches (mapLen : Nat) (calls : List (RunCall α)) : List Nat :=
  calls.filterMap (fun c => determinedBatch mapLen c.inputs c.target_node_names)

/-- Modelled from the spec: the declared per-example element count of
an output buffer, the product of all dimensions after the leading
(batch) one.  The source instead uses Blob.channels, the second
dimension alone; this definition follows the spec wording so the two
can be compared. -/
def perExampleCount (blob : Blob α) : Nat :=
  ((blob.shape.tail).map Int.toNat).prod

/-- The candidate list of the initial batch-capacity estimate, as the
spec describes it: the leading dimension of every declared input blob
whose shape has more than one dimension and a positive leading
dimension. -/
def candidatesOf (net : Net α) : List Nat :=
  net.input_blob_indices.filterMap
    (fun idx =>
      let shape := (net.blobs.getD idx default).shape
      if 1 < shape.length ∧ 0 < shape.headD 0 then some (shape.headD 0).toNat else none)

/-- Demo net with one bound input blob named data, shaped for batch
size 1 with two elements per example. -/
def demoNetA : Net Nat :=
  { blob_names := ["data"], blobs := [⟨[1, 2], [0, 0]⟩]
  , input_blob_indices := [0], output_blob_indices := [] }

/-- Outcome of a Run on demoNetA whose second request input carries a
name absent from the input binding table. -/
def demoOutcomeA : RunOutcome Nat :=
  (mkSession demoNetA).Run id id
    [("data", ⟨[1, 2], [7, 8]⟩), ("bogus", ⟨[1, 2], [9, 9]⟩)] [] []

/-- Demo net whose single input blob declares a leading dimension of 5,
so the initial capacity estimate is 5. -/
def demoNetB : Net Nat :=
  { blob_names := ["data"], blobs := [⟨[5, 3], List.replicate 15 0⟩]
  , input_blob_indices := [0], output_blob_indices := [] }

/-- Demo net with a rank-3 output blob: its per-example element count
is 6 while its channels dimension is 2. -/
def demoNetC : Net Nat :=
  { blob_names := ["data", "out"]
  , blobs := [⟨[1, 2], [0, 0]⟩, ⟨[1, 2, 3], [10, 11, 12, 13, 14, 15]⟩]
  , input_blob_indices := [0], output_blob_indices := [1] }

/-- Outcome of a valid single-input Run on demoNetC requesting the
rank-3 output blob. -/
def demoOutcomeC : RunOutcome Nat :=
  (mkSession demoNetC).Run id id [("data", ⟨[1, 2], [5, 6]⟩)] ["out"] []

/-- Demo net with a 2-D output blob, used by the witnesses for the
successful-run claims. -/
def demoNetD : Net Nat :=
  { blob_names := ["data", "out"]
  , blobs := [⟨[1, 3], [0, 0, 0]⟩, ⟨[1, 2], [10, 11]⟩]
  , input_blob_indices := [0], output_blob_indices := [1] }

/-- A batch-4 Run call on demoNetD, which grows capacity from 1 to 4. -/
def demoCallD : RunCall Nat :=
  { inputs := [("data", ⟨[4, 3], List.replicate 12 1⟩)]
  , output_tensor_names := ["out"], target_node_names := [] }

/-- Run call on demoNetA whose second input declares leading dimension
5 while the first declares 4. -/
def demoOutcomeMismatch : RunOutcome Nat :=
  (mkSession demoNetA).Run id id
    [("data", ⟨[4, 2], List.replicate 8 1⟩), ("data", ⟨[5, 2], List.replicate 10 2⟩)] [] []

/-! ## Helper lemmas -/

theorem resizeData_length [Inhabited α] (d : List α) (n : Nat) :
    (resizeData d n).length = n := by
  unfold resizeData
  simp only [List.length_append, List.length_take, List.length_replicate]
  omega

theorem resizeData_of_length [Inhabited α] (d : List α) :
    resizeData d d.length = d := by
  unfold resizeData
  simp

theorem resizeData_resizeData [Inhabited α] (d : List α) (n : Nat) :
    resizeData (resizeData d n) n = resizeData d n := by
  have h := resizeData_length d n
  calc resizeData (resizeData d n) n
      = resizeData (resizeData d n) (resizeData d n).length := by rw [h]
    _ = resizeData d n := resizeData_of_length _

theorem blobReshape_blobReshape [Inhabited α] (blob : Blob α) (ns : List Int) :
    blobReshape (blobReshape blob ns) ns = blobReshape blob ns := by
  unfold blobReshape
  simp only [resizeData_resizeData]

theorem Reshape_error_state [Inhabited α] (propagate : Net α → Net α)
    (s : CaffeServingSession α) (b : Nat) (e : RunError)
    (h : (s.Reshape propagate b).1 = .error e) : (s.Reshape propagate b).2 = s := by
  unfold CaffeServingSession.Reshape at h ⊢
  split_ifs at h ⊢
  · rfl

theorem Reshape_ok_of_ne_zero [Inhabited α] (propagate : Net α → Net α)
    (s : CaffeServingSession α) (b : Nat) (hb : b ≠ 0) :
    (s.Reshape propagate b).1 = .ok () := by
  unfold CaffeServingSession.Reshape
  split_ifs with h1 h2
  · exact absurd h1 hb
  · rfl
  · rfl

theorem Reshape_batch_eq [Inhabited α] (propagate : Net α → Net α)
    (s : CaffeServingSession α) (b : Nat) (hb : b ≠ 0) :
    (s.Reshape propagate b).2.batch_size_ = b := by
  unfold CaffeServingSession.Reshape
  split_ifs with h1 h2
  · exact absurd h1 hb
  · exact h2
  · rfl

theorem Reshape_batch_ge_one [Inhabited α] (propagate : Net α → Net α)
    (s : CaffeServingSession α) (b : Nat) (hs : 1 ≤ s.batch_size_) :
    1 ≤ (s.Reshape propagate b).2.batch_size_ := by
  unfold CaffeServingSession.Reshape
  split_ifs with h1 h2
  · exact hs
  · exact hs
  · show 1 ≤ b
    omega

theorem Reshape_maps [Inhabited α] (propagate : Net α → Net α)
    (s : CaffeServingSession α) (b : Nat) :
    (s.Reshape propagate b).2.input_blob_map_ = s.input_blob_map_ ∧
    (s.Reshape propagate b).2.output_blob_map_ = s.output_blob_map_ := by
  unfold CaffeServingSession.Reshape
  split_ifs <;> exact ⟨rfl, rfl⟩

theorem foldl_acc_le {β : Type} (g : Nat → β → Nat) (hg : ∀ x j, x ≤ g x j) :
    ∀ (l : List β) (x : Nat), x ≤ l.foldl g x := by
  intro l
  induction l with
  | nil => intro x; exact le_refl x
  | cons j l ih => intro x; exact le_trans (hg x j) (ih (g x j))

theorem BatchSizeOf_ge_one (net : Net α) : 1 ≤ BatchSizeOf net := by
  unfold BatchSizeOf
  refine foldl_acc_le _ ?_ _ 1
  intro x j
  dsimp only
  split_ifs with h
  · exact Nat.le_max_left _ _
  · exact le_refl x

theorem reshapeStep_shape [Inhabited α] (b : Nat) (blob : Blob α)
    (h : 1 < blob.shape.length ∧ 0 < blob.shape.headD 0) :
    (reshapeStep b blob).shape = (b : Int) :: blob.shape.tail := by
  unfold reshapeStep
  rw [if_pos h]
  rfl

theorem reshapeStep_of_not_qualifying [Inhabited α] (b : Nat) (blob : Blob α)
    (h : ¬(1 < blob.shape.length ∧ 0 < blob.shape.headD 0)) :
    reshapeStep b blob = blob := by
  unfold reshapeStep
  rw [if_neg h]

theorem reshapeStep_idem [Inhabited α] (b : Nat) (hb : b ≠ 0) (blob : Blob α) :
    reshapeStep b (reshapeStep b blob) = reshapeStep b blob := by
  by_cases h : 1 < blob.shape.length ∧ 0 < blob.shape.headD 0
  · have hs : (reshapeStep b blob).shape = (b : Int) :: blob.shape.tail :=
      reshapeStep_shape b blob h
    have hq : 1 < (reshapeStep b blob).shape.length ∧ 0 < (reshapeStep b blob).shape.headD 0 := by
      rw [hs]
      constructor
      · have : blob.shape.tail.length = blob.shape.length - 1 := List.length_tail _
        simp only [List.length_cons, this]
        omega
      · simp only [List.headD_cons]
        omega
    have step1 : reshapeStep b blob = blobReshape blob ((b : Int) :: blob.shape.tail) := by
      unfold reshapeStep; rw [if_pos h]
    generalize hX : reshapeStep b blob = X at hs hq step1 ⊢
    unfold reshapeStep
    rw [if_pos hq, hs]
    simp only [List.tail_cons]
    rw [step1, blobReshape_blobReshape]
  · rw [reshapeStep_of_not_qualifying b blob h, reshapeStep_of_not_qualifying b blob h]

theorem reshapeStep_default [Inhabited α] (b : Nat) :
    reshapeStep b (default : Blob α) = default := by
  apply reshapeStep_of_not_qualifying
  intro h
  exact absurd h.1 (by simp [default])

theorem netReshapeInputs_getD [Inhabited α] (net : Net α) (b : Nat) (hb : b ≠ 0) (i : Nat) :
    (netReshapeInputs net b).blobs.getD i default
      = if i ∈ net.input_blob_indices then reshapeStep b (net.blobs.getD i default)
        else net.blobs.getD i default := by
  unfold netReshapeInputs
  have key : ∀ (l : List Nat) (blobs : List (Blob α)) (i : Nat),
      (l.foldl (fun blobs idx =>
          let blob := blobs.getD idx default
          if 1 < blob.shape.length ∧ 0 < blob.shape.headD 0 then
            blobs.set idx (blobReshape blob ((b : Int) :: blob.shape.tail))
          else blobs) blobs).getD i default
        = if i ∈ l then reshapeStep b (blobs.getD i default) else blobs.getD i default := by
    intro l
    induction l with
    | nil => intro blobs i; simp
    | cons j l ih =>
      intro blobs i
      rw [List.foldl_cons, ih]
      have hstep : ∀ (k : Nat),
          ((let blob := blobs.getD j default
            if 1 < blob.shape.length ∧ 0 < blob.shape.headD 0 then
              blobs.set j (blobReshape blob ((b : Int) :: blob.shape.tail))
            else blobs).getD k default)
          = if k = j then reshapeStep b (blobs.getD k default) else blobs.getD k default := by
        intro k
        dsimp only
        by_cases hkj : k = j
        · subst hkj
          by_cases hq : 1 < (blobs.getD k default).shape.length ∧
              0 < (blobs.getD k default).shape.headD 0
          · rw [if_pos hq, if_pos rfl]
            by_cases hlen : k < blobs.length
            · rw [List.getD_eq_getElem?_getD, List.getElem?_set_self hlen, Option.getD_some]
              unfold reshapeStep
              rw [if_pos hq]
            · have h0 : blobs.getD k default = default := List.getD_eq_default _ _ (by omega)
              rw [h0] at hq
              exact absurd hq.1 (by simp [default])
          · rw [if_neg hq, if_pos rfl]
            unfold reshapeStep
            rw [if_neg hq]
        · by_cases hq : 1 < (blobs.getD j default).shape.length ∧
              0 < (blobs.getD j default).shape.headD 0
          · rw [if_pos hq, if_neg hkj]
            rw [List.getD_eq_getElem?_getD, List.getElem?_set_ne (fun hh => hkj hh.symm),
                ← List.getD_eq_getElem?_getD]
          · rw [if_neg hq, if_neg hkj]
      rw [hstep i]
      by_cases hij : i = j
      · subst hij
        by_cases hil : i ∈ l
        · rw [if_pos hil, if_pos (List.mem_cons_self _ _), if_pos rfl, reshapeStep_idem b hb]
        · rw [if_neg hil, if_pos (List.mem_cons_self _ _), if_pos rfl]
      · have hmem : i ∈ j :: l ↔ i ∈ l := by
          constructor
          · intro hh
            rcases List.mem_cons.mp hh with hh | hh
            · exact absurd hh hij
            · exact hh
          · intro hh; exact List.mem_cons_of_mem _ hh
        rw [if_neg hij]
        by_cases hil : i ∈ l
        · rw [if_pos hil, if_pos (hmem.mpr hil)]
        · rw [if_neg hil, if_neg (fun hh => hil (hmem.mp hh))]
  exact key net.input_blob_indices net.blobs i

theorem Run_rejects [Inhabited α] (fwd propagate : Net α → Net α)
    (s : CaffeServingSession α) (inputs : List (String × Tensor α))
    (outs targets : List String)
    (h : 0 < targets.length ∨ (inputs.length = 0 ∨ inputs.length < s.input_blob_map_.length) ∨
      (inputs.headD default).2.dims.length < 2 ∨ (inputs.headD default).2.dims.headD 0 < 1) :
    ∃ e, s.Run fwd propagate inputs outs targets = ⟨.error e, s, false⟩ := by
  unfold CaffeServingSession.Run
  split_ifs with h1 h2 h3
  · exact ⟨_, rfl⟩
  · exact ⟨_, rfl⟩
  · exact ⟨_, rfl⟩
  · dsimp only
    split_ifs with h4
    · exact ⟨_, rfl⟩
    all_goals omega

theorem runCopyStage_eq_error [Inhabited α] (fwd : Net α → Net α)
    (s1 : CaffeServingSession α) (inputs : List (String × Tensor α))
    (outs : List String) (b : Nat) (blobs1 : List (Blob α)) (e : RunError)
    (hc : copyInputs s1.input_blob_map_ b inputs s1.net_.blobs = (blobs1, some e)) :
    runCopyStage fwd s1 inputs outs b
      = ⟨.error e, { s1 with net_ := { s1.net_ with blobs := blobs1 } }, false⟩ := by
  unfold runCopyStage
  rw [hc]

theorem runCopyStage_eq_collect [Inhabited α] (fwd : Net α → Net α)
    (s1 : CaffeServingSession α) (inputs : List (String × Tensor α))
    (outs : List String) (b : Nat) (blobs1 : List (Blob α))
    (hc : copyInputs s1.input_blob_map_ b inputs s1.net_.blobs = (blobs1, none)) :
    runCopyStage fwd s1 inputs outs b
      = (match collectOutputs s1.output_blob_map_ (fwd { s1.net_ with blobs := blobs1 }).blobs b outs with
         | .error e => ⟨.error e, { s1 with net_ := fwd { s1.net_ with blobs := blobs1 } }, true⟩
         | .ok ts => ⟨.ok ts, { s1 with net_ := fwd { s1.net_ with blobs := blobs1 } }, true⟩) := by
  unfold runCopyStage
  rw [hc]

theorem runValidated_eq_noGrow [Inhabited α] (fwd propagate : Net α → Net α)
    (s : CaffeServingSession α) (inputs : List (String × Tensor α))
    (outs : List String) (b : Nat) (h : ¬s.batch_size_ < b) :
    runValidated fwd propagate s inputs outs b = runCopyStage fwd s inputs outs b := by
  unfold runValidated
  rw [if_neg h]

theorem runValidated_eq_grow [Inhabited α] (fwd propagate : Net α → Net α)
    (s : CaffeServingSession α) (inputs : List (String × Tensor α))
    (outs : List String) (b : Nat) (s1 : CaffeServingSession α) (u : Unit)
    (h : s.batch_size_ < b) (hr : s.Reshape propagate b = (.ok u, s1)) :
    runValidated fwd propagate s inputs outs b = runCopyStage fwd s1 inputs outs b := by
  unfold runValidated
  rw [if_pos h, hr]

theorem Run_eq_validated [Inhabited α] (fwd propagate : Net α → Net α)
    (s : CaffeServingSession α) (inputs : List (String × Tensor α))
    (outs targets : List String)
    (h1 : ¬0 < targets.length)
    (h2 : ¬(inputs.length = 0 ∨ inputs.length < s.input_blob_map_.length))
    (h3 : ¬(inputs.headD default).2.dims.length < 2)
    (h4 : ¬(inputs.headD default).2.dims.headD 0 < 1) :
    s.Run fwd propagate inputs outs targets
      = runValidated fwd propagate s inputs outs ((inputs.headD default).2.dims.headD 0) := by
  unfold CaffeServingSession.Run
  rw [if_neg h1, if_neg h2, if_neg h3]
  dsimp only
  rw [if_neg h4]

theorem runValidated_state_inv [Inhabited α] (fwd propagate : Net α → Net α)
    (s : CaffeServingSession α) (inputs : List (String × Tensor α))
    (outs : List String) (b : Nat) (hb : b ≠ 0) :
    (runValidated fwd propagate s inputs outs b).state.input_blob_map_ = s.input_blob_map_ ∧
    (runValidated fwd propagate s inputs outs b).state.output_blob_map_ = s.output_blob_map_ ∧
    s.batch_size_ ≤ (runValidated fwd propagate s inputs outs b).state.batch_size_ ∧
    b ≤ (runValidated fwd propagate s inputs outs b).state.batch_size_ := by
  have copyInv : ∀ (s1 : CaffeServingSession α),
      (runCopyStage fwd s1 inputs outs b).state.input_blob_map_ = s1.input_blob_map_ ∧
      (runCopyStage fwd s1 inputs outs b).state.output_blob_map_ = s1.output_blob_map_ ∧
      (runCopyStage fwd s1 inputs outs b).state.batch_size_ = s1.batch_size_ := by
    intro s1
    rcases hc : copyInputs s1.input_blob_map_ b inputs s1.net_.blobs with ⟨blobs1, r⟩
    cases r with
    | some e => rw [runCopyStage_eq_error fwd s1 inputs outs b blobs1 e hc]; exact ⟨rfl, rfl, rfl⟩
    | none =>
      rw [runCopyStage_eq_collect fwd s1 inputs outs b blobs1 hc]
      rcases collectOutputs s1.output_blob_map_ (fwd { s1.net_ with blobs := blobs1 }).blobs b outs
        with e | ts
      · exact ⟨rfl, rfl, rfl⟩
      · exact ⟨rfl, rfl, rfl⟩
  by_cases h5 : s.batch_size_ < b
  · have hbb := Reshape_batch_eq propagate s b hb
    have hok := Reshape_ok_of_ne_zero propagate s b hb
    have hmm := Reshape_maps propagate s b
    rcases hr : s.Reshape propagate b with ⟨res, s1⟩
    rw [hr] at hbb hok hmm
    have hb1 : s1.batch_size_ = b := hbb
    have hm1 : s1.input_blob_map_ = s.input_blob_map_ := hmm.1
    have hm2 : s1.output_blob_map_ = s.output_blob_map_ := hmm.2
    have hresu : res = .ok () := hok
    subst hresu
    rw [runValidated_eq_grow fwd propagate s inputs outs b s1 () h5 hr]
    obtain ⟨k1, k2, k3⟩ := copyInv s1
    refine ⟨k1.trans hm1, k2.trans hm2, ?_, ?_⟩ <;> omega
  · rw [runValidated_eq_noGrow fwd propagate s inputs outs b h5]
    obtain ⟨k1, k2, k3⟩ := copyInv s
    refine ⟨k1, k2, ?_, ?_⟩ <;> omega

theorem Run_state_inv [Inhabited α] (fwd propagate : Net α → Net α)
    (s : CaffeServingSession α) (inputs : List (String × Tensor α))
    (outs targets : List String) :
    (s.Run fwd propagate inputs outs targets).state.input_blob_map_ = s.input_blob_map_ ∧
    (s.Run fwd propagate inputs outs targets).state.output_blob_map_ = s.output_blob_map_ ∧
    s.batch_size_ ≤ (s.Run fwd propagate inputs outs targets).state.batch_size_ := by
  by_cases h1 : 0 < targets.length
  · obtain ⟨e, he⟩ := Run_rejects fwd propagate s inputs outs targets (Or.inl h1)
    rw [he]
    exact ⟨rfl, rfl, le_refl _⟩
  by_cases h2 : inputs.length = 0 ∨ inputs.length < s.input_blob_map_.length
  · obtain ⟨e, he⟩ := Run_rejects fwd propagate s inputs outs targets (Or.inr (Or.inl h2))
    rw [he]
    exact ⟨rfl, rfl, le_refl _⟩
  by_cases h3 : (inputs.headD default).2.dims.length < 2
  · obtain ⟨e, he⟩ := Run_rejects fwd propagate s inputs outs targets (Or.inr (Or.inr (Or.inl h3)))
    rw [he]
    exact ⟨rfl, rfl, le_refl _⟩
  by_cases h4 : (inputs.headD default).2.dims.headD 0 < 1
  · obtain ⟨e, he⟩ := Run_rejects fwd propagate s inputs outs targets
      (Or.inr (Or.inr (Or.inr h4)))
    rw [he]
    exact ⟨rfl, rfl, le_refl _⟩
  rw [Run_eq_validated fwd propagate s inputs outs targets h1 h2 h3 h4]
  obtain ⟨k1, k2, k3, k4⟩ := runValidated_state_inv fwd propagate s inputs outs
    ((inputs.headD default).2.dims.headD 0) (by omega)
  exact ⟨k1, k2, k3⟩

theorem Run_batch_det [Inhabited α] (fwd propagate : Net α → Net α)
    (s : CaffeServingSession α) (inputs : List (String × Tensor α))
    (outs targets : List String) (b : Nat)
    (hd : determinedBatch s.input_blob_map_.length inputs targets = some b) :
    b ≤ (s.Run fwd propagate inputs outs targets).state.batch_size_ := by
  unfold determinedBatch at hd
  by_cases h1 : 0 < targets.length
  · rw [if_pos h1] at hd; exact absurd hd (by simp)
  rw [if_neg h1] at hd
  by_cases h2 : inputs.length = 0 ∨ inputs.length < s.input_blob_map_.length
  · rw [if_pos h2] at hd; exact absurd hd (by simp)
  rw [if_neg h2] at hd
  by_cases h3 : (inputs.headD default).2.dims.length < 2
  · rw [if_pos h3] at hd; exact absurd hd (by simp)
  rw [if_neg h3] at hd
  dsimp only at hd
  by_cases h4 : (inputs.headD default).2.dims.headD 0 < 1
  · rw [if_pos h4] at hd; exact absurd hd (by simp)
  rw [if_neg h4] at hd
  have hb : (inputs.headD default).2.dims.headD 0 = b := by
    injection hd
  rw [Run_eq_validated fwd propagate s inputs outs targets h1 h2 h3 h4, hb]
  obtain ⟨_, _, _, k4⟩ := runValidated_state_inv fwd propagate s inputs outs b (by omega)
  exact k4

theorem copyInputs_mismatch_error [Inhabited α] (m : List (String × Nat)) (b : Nat) :
    ∀ (inputs : List (String × Tensor α)) (blobs : List (Blob α)),
      (∀ p ∈ inputs, (mapFind m p.1).isSome) →
      (∃ p ∈ inputs, p.2.dims.headD 0 ≠ b) →
      ∃ e, (copyInputs m b inputs blobs).2 = some e := by
  intro inputs
  induction inputs with
  | nil =>
    intro blobs hall hex
    rcases hex with ⟨p, hp, _⟩
    exact absurd hp (List.not_mem_nil p)
  | cons q rest ih =>
    intro blobs hall hex
    rcases q with ⟨name, t⟩
    unfold copyInputs
    rcases hf : mapFind m name with _ | idx
    · have hq := hall (name, t) (List.mem_cons_self _ _)
      rw [hf] at hq
      exact absurd hq (by simp)
    · dsimp only
      by_cases hmis : t.dims.headD 0 ≠ b
      · rw [if_pos hmis]
        exact ⟨.inputBatchMismatch name, rfl⟩
      · rw [if_neg hmis]
        push_neg at hmis
        have hex2 : ∃ p ∈ rest, p.2.dims.headD 0 ≠ b := by
          rcases hex with ⟨p, hp, hpne⟩
          rcases List.mem_cons.mp hp with hp0 | hp0
          · exact absurd (by rw [hp0]; exact hmis) hpne
          · exact ⟨p, hp0, hpne⟩
        exact ih _ (fun p hp => hall p (List.mem_cons_of_mem _ hp)) hex2

theorem copyInputs_error_shape [Inhabited α] (m : List (String × Nat)) (b : Nat) :
    ∀ (inputs : List (String × Tensor α)) (blobs : List (Blob α)) (e : RunError),
      (copyInputs m b inputs blobs).2 = some e →
      (∃ n, e = .unknownInput n) ∨ (∃ n, e = .inputBatchMismatch n) := by
  intro inputs
  induction inputs with
  | nil =>
    intro blobs e h
    exact absurd h (by unfold copyInputs; simp)
  | cons q rest ih =>
    intro blobs e h
    rcases q with ⟨name, t⟩
    unfold copyInputs at h
    rcases hf : mapFind m name with _ | idx
    · rw [hf] at h
      have : RunError.unknownInput name = e := by injection h
      exact Or.inl ⟨name, this.symm⟩
    · rw [hf] at h
      dsimp only at h
      by_cases hmis : t.dims.headD 0 ≠ b
      · rw [if_pos hmis] at h
        have : RunError.inputBatchMismatch name = e := by injection h
        exact Or.inr ⟨name, this.symm⟩
      · rw [if_neg hmis] at h
        exact ih _ e h

theorem collectOutputs_error_shape [Inhabited α] (m : List (String × Nat))
    (blobs : List (Blob α)) (b : Nat) :
    ∀ (names : List String) (e : RunError),
      collectOutputs m blobs b names = .error e → ∃ n, e = .unknownOutput n := by
  intro names
  induction names with
  | nil =>
    intro e h
    exact absurd h (by unfold collectOutputs; simp)
  | cons name rest ih =>
    intro e h
    unfold collectOutputs at h
    rcases hf : mapFind m name with _ | idx
    · rw [hf] at h
      have : RunError.unknownOutput name = e := by injection h
      exact ⟨name, this.symm⟩
    · rw [hf] at h
      rcases hco : collectOutputs m blobs b rest with e2 | ts0
      · rw [hco] at h
        have : e2 = e := by injection h
        exact this ▸ ih e2 hco
      · rw [hco] at h
        exact absurd h (by simp)

theorem collectOutputs_ok [Inhabited α] (m : List (String × Nat))
    (blobs : List (Blob α)) (b : Nat) :
    ∀ (names : List String) (ts : List (Tensor α)),
      collectOutputs m blobs b names = .ok ts →
      ts.length = names.length ∧
      ∀ (i : Nat) (hi : i < ts.length) (hn : i < names.length),
        ∃ idx, mapFind m (names.get ⟨i, hn⟩) = some idx ∧
          ts.get ⟨i, hi⟩ = outputTensorOf (blobs.getD idx default) b := by
  intro names
  induction names with
  | nil =>
    intro ts h
    have hts : ts = [] := by
      unfold collectOutputs at h
      have : ([] : List (Tensor α)) = ts := by injection h
      exact this.symm
    subst hts
    exact ⟨rfl, fun i hi hn => absurd hn (by simp)⟩
  | cons name rest ih =>
    intro ts h
    unfold collectOutputs at h
    rcases hf : mapFind m name with _ | idx
    · rw [hf] at h
      exact absurd h (by simp)
    · rw [hf] at h
      rcases hco : collectOutputs m blobs b rest with e | ts0
      · rw [hco] at h
        exact absurd h (by simp)
      · rw [hco] at h
        have hts : outputTensorOf (blobs.getD idx default) b :: ts0 = ts := by injection h
        subst hts
        obtain ⟨ihlen, ihget⟩ := ih ts0 hco
        refine ⟨by simp [ihlen], ?_⟩
        intro i hi hn
        cases i with
        | zero => exact ⟨idx, hf, rfl⟩
        | succ j =>
          have hj1 : j < ts0.length := by
            simpa using hi
          have hj2 : j < rest.length := by
            simpa using hn
          obtain ⟨idx2, hfi, hgi⟩ := ihget j hj1 hj2
          exact ⟨idx2, hfi, hgi⟩

theorem runCopyStage_error_inv [Inhabited α] (fwd : Net α → Net α)
    (s1 : CaffeServingSession α) (inputs : List (String × Tensor α))
    (outs : List String) (b : Nat) (e : RunError)
    (he : (runCopyStage fwd s1 inputs outs b).result = .error e) :
    e.isPreCopy = false ∧
    (e.isOutputLookup = false → (runCopyStage fwd s1 inputs outs b).forwardRan = false) := by
  rcases hc : copyInputs s1.input_blob_map_ b inputs s1.net_.blobs with ⟨blobs1, r⟩
  cases r with
  | some e2 =>
    rw [runCopyStage_eq_error fwd s1 inputs outs b blobs1 e2 hc] at he ⊢
    have he2 : e2 = e := by
      have hx : Except.error (ε := RunError) (α := List (Tensor α)) e2 = .error e := he
      injection hx
    subst he2
    have hshape := copyInputs_error_shape s1.input_blob_map_ b inputs s1.net_.blobs e2
      (by rw [hc])
    rcases hshape with ⟨n, hn⟩ | ⟨n, hn⟩ <;> subst hn <;> exact ⟨rfl, fun _ => rfl⟩
  | none =>
    rw [runCopyStage_eq_collect fwd s1 inputs outs b blobs1 hc] at he ⊢
    rcases hco : collectOutputs s1.output_blob_map_
        (fwd { s1.net_ with blobs := blobs1 }).blobs b outs with e2 | ts0
    · rw [hco] at he
      dsimp only at he ⊢
      have he2 : e2 = e := by
        have hx : Except.error (ε := RunError) (α := List (Tensor α)) e2 = .error e := he
        injection hx
      subst he2
      obtain ⟨n, hn⟩ := collectOutputs_error_shape s1.output_blob_map_
        (fwd { s1.net_ with blobs := blobs1 }).blobs b outs e2 hco
      subst hn
      exact ⟨rfl, fun hfalse => absurd hfalse (by simp [RunError.isOutputLookup])⟩
    · rw [hco] at he
      dsimp only at he
      exact absurd he (by simp)

theorem runCopyStage_ok_inv [Inhabited α] (fwd : Net α → Net α)
    (s1 : CaffeServingSession α) (inputs : List (String × Tensor α))
    (outs : List String) (b : Nat) (ts : List (Tensor α))
    (h : (runCopyStage fwd s1 inputs outs b).result = .ok ts) :
    collectOutputs s1.output_blob_map_
      ((runCopyStage fwd s1 inputs outs b).state.net_.blobs) b outs = .ok ts := by
  rcases hc : copyInputs s1.input_blob_map_ b inputs s1.net_.blobs with ⟨blobs1, r⟩
  cases r with
  | some e =>
    rw [runCopyStage_eq_error fwd s1 inputs outs b blobs1 e hc] at h
    exact absurd h (by simp)
  | none =>
    rw [runCopyStage_eq_collect fwd s1 inputs outs b blobs1 hc] at h ⊢
    rcases hco : collectOutputs s1.output_blob_map_
        (fwd { s1.net_ with blobs := blobs1 }).blobs b outs with e | ts0
    · rw [hco] at h
      dsimp only at h
      exact absurd h (by simp)
    · rw [hco] at h
      dsimp only at h ⊢
      have hts : ts0 = ts := by
        have hx : Except.ok (ε := RunError) ts0 = .ok ts := h
        injection hx
      subst hts
      exact hco

theorem Run_error_inv [Inhabited α] (fwd propagate : Net α → Net α)
    (s : CaffeServingSession α) (inputs : List (String × Tensor α))
    (outs targets : List String) (e : RunError)
    (he : (s.Run fwd propagate inputs outs targets).result = .error e) :
    (e.isOutputLookup = false → (s.Run fwd propagate inputs outs targets).forwardRan = false) ∧
    (e.isPreCopy = true → (s.Run fwd propagate inputs outs targets).state = s) := by
  by_cases h1 : 0 < targets.length
  · obtain ⟨e2, he2⟩ := Run_rejects fwd propagate s inputs outs targets (Or.inl h1)
    rw [he2]
    exact ⟨fun _ => rfl, fun _ => rfl⟩
  by_cases h2 : inputs.length = 0 ∨ inputs.length < s.input_blob_map_.length
  · obtain ⟨e2, he2⟩ := Run_rejects fwd propagate s inputs outs targets (Or.inr (Or.inl h2))
    rw [he2]
    exact ⟨fun _ => rfl, fun _ => rfl⟩
  by_cases h3 : (inputs.headD default).2.dims.length < 2
  · obtain ⟨e2, he2⟩ := Run_rejects fwd propagate s inputs outs targets
      (Or.inr (Or.inr (Or.inl h3)))
    rw [he2]
    exact ⟨fun _ => rfl, fun _ => rfl⟩
  by_cases h4 : (inputs.headD default).2.dims.headD 0 < 1
  · obtain ⟨e2, he2⟩ := Run_rejects fwd propagate s inputs outs targets
      (Or.inr (Or.inr (Or.inr h4)))
    rw [he2]
    exact ⟨fun _ => rfl, fun _ => rfl⟩
  rw [Run_eq_validated fwd propagate s inputs outs targets h1 h2 h3 h4] at he ⊢
  have hbne : (inputs.headD default).2.dims.headD 0 ≠ 0 := by omega
  by_cases h5 : s.batch_size_ < (inputs.headD default).2.dims.headD 0
  · have hok := Reshape_ok_of_ne_zero propagate s _ hbne
    rcases hr : s.Reshape propagate ((inputs.headD default).2.dims.headD 0) with ⟨res, s1⟩
    rw [hr] at hok
    have hres : res = .ok () := hok
    subst hres
    rw [runValidated_eq_grow fwd propagate s inputs outs _ s1 () h5 hr] at he ⊢
    obtain ⟨k1, k2⟩ := runCopyStage_error_inv fwd s1 inputs outs _ e he
    exact ⟨k2, fun hpre => absurd hpre (by rw [k1]; simp)⟩
  · rw [runValidated_eq_noGrow fwd propagate s inputs outs _ h5] at he ⊢
    obtain ⟨k1, k2⟩ := runCopyStage_error_inv fwd s inputs outs _ e he
    exact ⟨k2, fun hpre => absurd hpre (by rw [k1]; simp)⟩

theorem Run_ok_inv [Inhabited α] (fwd propagate : Net α → Net α)
    (s : CaffeServingSession α) (inputs : List (String × Tensor α))
    (outs targets : List String) (ts : List (Tensor α))
    (h : (s.Run fwd propagate inputs outs targets).result = .ok ts) :
    collectOutputs s.output_blob_map_
      ((s.Run fwd propagate inputs outs targets).state.net_.blobs)
      ((inputs.headD default).2.dims.headD 0) outs = .ok ts := by
  by_cases h1 : 0 < targets.length
  · obtain ⟨e2, he2⟩ := Run_rejects fwd propagate s inputs outs targets (Or.inl h1)
    rw [he2] at h
    exact absurd h (by simp)
  by_cases h2 : inputs.length = 0 ∨ inputs.length < s.input_blob_map_.length
  · obtain ⟨e2, he2⟩ := Run_rejects fwd propagate s inputs outs targets (Or.inr (Or.inl h2))
    rw [he2] at h
    exact absurd h (by simp)
  by_cases h3 : (inputs.headD default).2.dims.length < 2
  · obtain ⟨e2, he2⟩ := Run_rejects fwd propagate s inputs outs targets
      (Or.inr (Or.inr (Or.inl h3)))
    rw [he2] at h
    exact absurd h (by simp)
  by_cases h4 : (inputs.headD default).2.dims.headD 0 < 1
  · obtain ⟨e2, he2⟩ := Run_rejects fwd propagate s inputs outs targets
      (Or.inr (Or.inr (Or.inr h4)))
    rw [he2] at h
    exact absurd h (by simp)
  rw [Run_eq_validated fwd propagate s inputs outs targets h1 h2 h3 h4] at h ⊢
  have hbne : (inputs.headD default).2.dims.headD 0 ≠ 0 := by omega
  by_cases h5 : s.batch_size_ < (inputs.headD default).2.dims.headD 0
  · have hok := Reshape_ok_of_ne_zero propagate s _ hbne
    have hmm := Reshape_maps propagate s ((inputs.headD default).2.dims.headD 0)
    rcases hr : s.Reshape propagate ((inputs.headD default).2.dims.headD 0) with ⟨res, s1⟩
    rw [hr] at hok hmm
    have hres : res = .ok () := hok
    subst hres
    have hm2 : s1.output_blob_map_ = s.output_blob_map_ := hmm.2
    rw [runValidated_eq_grow fwd propagate s inputs outs _ s1 () h5 hr] at h ⊢
    rw [← hm2]
    exact runCopyStage_ok_inv fwd s1 inputs outs _ ts h
  · rw [runValidated_eq_noGrow fwd propagate s inputs outs _ h5] at h ⊢
    exact runCopyStage_ok_inv fwd s inputs outs _ ts h

theorem BatchSizeOf_eq_foldl (net : Net α) :
    BatchSizeOf net = (candidatesOf net).foldl Nat.max 1 := by
  unfold BatchSizeOf candidatesOf
  have key : ∀ (l : List Nat) (x : Nat),
      l.foldl (fun x idx =>
          let shape := (net.blobs.getD idx default).shape
          if 1 < shape.length ∧ 0 < shape.headD 0 then Nat.max x (shape.headD 0).toNat else x) x
        = (l.filterMap (fun idx =>
            let shape := (net.blobs.getD idx default).shape
            if 1 < shape.length ∧ 0 < shape.headD 0
            then some (shape.headD 0).toNat else none)).foldl Nat.max x := by
    intro l
    induction l with
    | nil => intro x; rfl
    | cons j rest ih =>
      intro x
      rw [List.foldl_cons, List.filterMap_cons]
      dsimp only
      by_cases hc : 1 < (net.blobs.getD j default).shape.length ∧
          0 < (net.blobs.getD j default).shape.headD 0
      · rw [if_pos hc, if_pos hc]
        dsimp only
        rw [List.foldl_cons]
        exact ih _
      · rw [if_neg hc, if_neg hc]
        dsimp only
        exact ih _
  exact key net.input_blob_indices 1

theorem candidatesOf_pos (net : Net α) : ∀ c ∈ candidatesOf net, 1 ≤ c := by
  intro c hc
  unfold candidatesOf at hc
  rw [List.mem_filterMap] at hc
  rcases hc with ⟨idx, _, heq⟩
  dsimp only at heq
  split_ifs at heq with h
  · have h2 := h.2
    have hv : ((net.blobs.getD idx default).shape.headD 0).toNat = c := by injection heq
    omega

theorem le_foldl_max : ∀ (l : List Nat) (x c : Nat), c ∈ l → c ≤ l.foldl Nat.max x := by
  intro l
  induction l with
  | nil => intro x c hc; exact absurd hc (List.not_mem_nil c)
  | cons d ds ih =>
    intro x c hc
    rw [List.foldl_cons]
    rcases List.mem_cons.mp hc with h | h
    · subst h
      exact le_trans (Nat.le_max_right x c)
        (foldl_acc_le Nat.max (fun a b => Nat.le_max_left a b) ds _)
    · exact ih _ c h

theorem foldl_max_one_eq (c : List Nat) (hpos : ∀ x ∈ c, 1 ≤ x) :
    c.foldl Nat.max 1 = (c.max?).getD 1 := by
  cases c with
  | nil => rfl
  | cons d ds =>
    have hd : 1 ≤ d := hpos d (List.mem_cons_self _ _)
    rw [List.foldl_cons]
    have h1 : Nat.max 1 d = d := max_eq_right hd
    rw [h1]
    rfl

theorem Run_seq_step [Inhabited α] (fwd propagate : Net α → Net α)
    (s : CaffeServingSession α) (c : RunCall α) (rest : List (RunCall α)) :
    runSeq fwd propagate s (c :: rest)
      = runSeq fwd propagate
          ((s.Run fwd propagate c.inputs c.output_tensor_names c.target_node_names).state)
          rest := by
  unfold runSeq
  rw [List.foldl_cons]

theorem runSeq_inv [Inhabited α] (fwd propagate : Net α → Net α) :
    ∀ (calls : List (RunCall α)) (s : CaffeServingSession α),
      s.batch_size_ ≤ (runSeq fwd propagate s calls).batch_size_ ∧
      ∀ b ∈ determinedBatches s.input_blob_map_.length calls,
        b ≤ (runSeq fwd propagate s calls).batch_size_ := by
  intro calls
  induction calls with
  | nil =>
    intro s
    refine ⟨le_refl _, ?_⟩
    intro b hb
    exact absurd hb (by unfold determinedBatches; simp)
  | cons c rest ih =>
    intro s
    obtain ⟨m1, m2, mono⟩ :=
      Run_state_inv fwd propagate s c.inputs c.output_tensor_names c.target_node_names
    obtain ⟨ih1, ih2⟩ :=
      ih ((s.Run fwd propagate c.inputs c.output_tensor_names c.target_node_names).state)
    rw [Run_seq_step fwd propagate s c rest]
    have hlen : (s.Run fwd propagate c.inputs c.output_tensor_names
        c.target_node_names).state.input_blob_map_.length = s.input_blob_map_.length := by
      rw [m1]
    constructor
    · exact le_trans mono ih1
    · intro b hb
      unfold determinedBatches at hb
      rw [List.filterMap_cons] at hb
      cases hd : determinedBatch s.input_blob_map_.length c.inputs c.target_node_names with
      | none =>
        rw [hd] at hb
        dsimp only at hb
        refine ih2 b ?_
        unfold determinedBatches
        rw [hlen]
        exact hb
      | some b0 =>
        rw [hd] at hb
        dsimp only at hb
        rcases List.mem_cons.mp hb with hb0 | hb0
        · subst hb0
          have hbd := Run_batch_det fwd propagate s c.inputs c.output_tensor_names
            c.target_node_names b hd
          exact le_trans hbd ih1
        · refine ih2 b ?_
          unfold determinedBatches
          rw [hlen]
          exact hb0

theorem Reshape_eq_grow [Inhabited α] (propagate : Net α → Net α)
    (s : CaffeServingSession α) (b : Nat) (hb : b ≠ 0) (hne : s.batch_size_ ≠ b) :
    s.Reshape propagate b
      = (.ok (), { s with net_ := propagate (netReshapeInputs s.net_ b), batch_size_ := b }) := by
  unfold CaffeServingSession.Reshape
  rw [if_neg hb, if_neg hne]

/-! ## Claim theorems -/

/-- Claim C1 counterexample: a Run request whose second input carries an unknown name
returns an InvalidArgument error without running the forward pass, but the first input
has already been copied into its engine buffer, so buffer contents were mutated during
the failing call, contrary to the claim that no buffer mutation happens. -/
theorem C1_counterexample :
    demoOutcomeA.result = .error (.unknownInput "bogus") ∧
    demoOutcomeA.forwardRan = false ∧
    ((mkSession demoNetA).net_.blobs.getD 0 default).data = [0, 0] ∧
    (demoOutcomeA.state.net_.blobs.getD 0 default).data = [7, 8] := by
  refine ⟨?_, ?_, ?_, ?_⟩ <;> decide

/-- Claim C1 amended: every Run validation failure (any error other than the unknown
output-name error, which the source raises only after the forward pass) is an
InvalidArgument error returned before the forward pass executes; failures detected
before the input-copy loop (target selectors, input count, batch-size determination,
reshape) leave the session entirely unchanged; an unknown input name or an input
batch-size mismatch is detected inside the copy loop, after inputs listed earlier in
the request have already been copied into engine buffers, so buffer mutation may have
occurred for such a failure. -/
theorem C1_amended [Inhabited α] (fwd propagate : Net α → Net α)
    (s : CaffeServingSession α) (inputs : List (String × Tensor α))
    (outs targets : List String) (e : RunError)
    (he : (s.Run fwd propagate inputs outs targets).result = .error e) :
    e.code = .invalidArgument ∧
    (e.isOutputLookup = false → (s.Run fwd propagate inputs outs targets).forwardRan = false) ∧
    (e.isPreCopy = true → (s.Run fwd propagate inputs outs targets).state = s) := by
  obtain ⟨k1, k2⟩ := Run_error_inv fwd propagate s inputs outs targets e he
  exact ⟨rfl, k1, k2⟩

/-- Witness for the amended C1 theorem at the concrete unknown-name request. -/
theorem C1_witness :
    RunError.code (.unknownInput "bogus") = .invalidArgument ∧
    demoOutcomeA.forwardRan = false := by
  obtain ⟨w1, w2, w3⟩ := C1_amended (α := Nat) id id (mkSession demoNetA)
    [("data", ⟨[1, 2], [7, 8]⟩), ("bogus", ⟨[1, 2], [9, 9]⟩)] [] []
    (.unknownInput "bogus") (by decide)
  exact ⟨w1, w2 (by decide)⟩

/-- Claim C2 counterexample: on a session whose initial capacity estimate is 5, the
externally exposed Reshape with argument 2 (which is at least 1) drops the capacity
from 5 to 2, so capacity does not only ever increase over the adapter lifetime. -/
theorem C2_counterexample :
    (mkSession demoNetB).batch_size_ = 5 ∧
    ((mkSession demoNetB).Reshape id 2).2.batch_size_ = 2 ∧
    ((mkSession demoNetB).Reshape id 2).2.batch_size_ < (mkSession demoNetB).batch_size_ := by
  refine ⟨?_, ?_, ?_⟩ <;> decide

/-- Claim C2 amended: the capacity is at least 1 at construction and stays at least 1
under Reshape with any argument; Run never decreases the capacity; but an external
Reshape call with argument b at least 1 sets the capacity to exactly b, which decreases
it whenever b is below the current capacity, so the only-ever-increases part holds for
Run-driven growth and fails for the external Reshape interface. -/
theorem C2_amended [Inhabited α] :
    (∀ net : Net α, 1 ≤ (mkSession net).batch_size_) ∧
    (∀ (propagate : Net α → Net α) (s : CaffeServingSession α) (b : Nat),
      1 ≤ s.batch_size_ → 1 ≤ (s.Reshape propagate b).2.batch_size_) ∧
    (∀ (propagate : Net α → Net α) (s : CaffeServingSession α) (b : Nat),
      1 ≤ b → (s.Reshape propagate b).2.batch_size_ = b) ∧
    (∀ (fwd propagate : Net α → Net α) (s : CaffeServingSession α)
      (inputs : List (String × Tensor α)) (outs targets : List String),
      s.batch_size_ ≤ (s.Run fwd propagate inputs outs targets).state.batch_size_) := by
  refine ⟨?_, ?_, ?_, ?_⟩
  · intro net
    exact BatchSizeOf_ge_one net
  · intro propagate s b hs
    exact Reshape_batch_ge_one propagate s b hs
  · intro propagate s b hb1
    exact Reshape_batch_eq propagate s b (by omega)
  · intro fwd propagate s inputs outs targets
    exact (Run_state_inv fwd propagate s inputs outs targets).2.2

/-- Witness for the amended C2 theorem at a concrete session and Reshape argument. -/
theorem C2_witness :
    1 ≤ (mkSession demoNetA).batch_size_ ∧
    ((mkSession demoNetA).Reshape id 3).2.batch_size_ = 3 :=
  ⟨(C2_amended (α := Nat)).1 demoNetA,
   (C2_amended (α := Nat)).2.2.1 id (mkSession demoNetA) 3 (by decide)⟩

/-- Claim C3 counterexample: a successful Run on a net whose requested output blob has
declared shape [1, 2, 3] returns a tensor of shape (1, 2) populated with 2 elements,
while the per-example element count of that blob is 6, so the result does not have
shape (batch, perExampleCount) and does not copy batch times perExampleCount
elements. -/
theorem C3_counterexample :
    demoOutcomeC.result = .ok [⟨[1, 2], [10, 11]⟩] ∧
    perExampleCount ((mkSession demoNetC).net_.blobs.getD 1 default) = 6 ∧
    ([1, 2] : List Nat) ≠ [1, 6] := by
  refine ⟨?_, ?_, ?_⟩ <;> decide

/-- Claim C3 amended: every successful Run returns exactly one tensor per requested
output name, in request order; the i-th tensor is the output tensor built from the
bound blob of the post-forward net, shaped (b, channels_i) and populated with the
leading b * channels_i elements of that blob storage, where b is the determined batch
size and channels_i is the second declared dimension of the blob (1 for rank below 2)
rather than the per-example element count; the two coincide exactly when the output
blob has rank at most 2. -/
theorem C3_amended [Inhabited α] (fwd propagate : Net α → Net α)
    (s : CaffeServingSession α) (inputs : List (String × Tensor α))
    (outs targets : List String) (ts : List (Tensor α))
    (h : (s.Run fwd propagate inputs outs targets).result = .ok ts) :
    ts.length = outs.length ∧
    (∀ (i : Nat) (hi : i < ts.length) (hn : i < outs.length),
      ∃ idx, mapFind s.output_blob_map_ (outs.get ⟨i, hn⟩) = some idx ∧
        ts.get ⟨i, hi⟩
          = outputTensorOf
              (((s.Run fwd propagate inputs outs targets).state.net_.blobs).getD idx default)
              ((inputs.headD default).2.dims.headD 0) ∧
        (ts.get ⟨i, hi⟩).dims
          = [(inputs.headD default).2.dims.headD 0,
             (((s.Run fwd propagate inputs outs targets).state.net_.blobs).getD
                idx default).channels.toNat]) ∧
    (∀ blob : Blob α, blob.shape.length ≤ 2 → blob.channels.toNat = perExampleCount blob) := by
  have hcoll := Run_ok_inv fwd propagate s inputs outs targets ts h
  obtain ⟨hlen, hget⟩ := collectOutputs_ok s.output_blob_map_ _ _ outs ts hcoll
  refine ⟨hlen, ?_, ?_⟩
  · intro i hi hn
    obtain ⟨idx, hf, hg⟩ := hget i hi hn
    exact ⟨idx, hf, hg, by rw [hg]; rfl⟩
  · intro blob hrank
    rcases hs : blob.shape with _ | ⟨a, rest⟩
    · unfold Blob.channels perExampleCount
      rw [hs]
      rfl
    · rcases rest with _ | ⟨c, rest2⟩
      · unfold Blob.channels perExampleCount
        rw [hs]
        rfl
      · rcases rest2 with _ | ⟨d, rest3⟩
        · unfold Blob.channels perExampleCount
          rw [hs]
          simp
        · rw [hs] at hrank
          simp at hrank

/-- Witness for the amended C3 theorem at the concrete batch-4 end-to-end run. -/
theorem C3_witness :
    ([⟨[4, 2], [10, 11]⟩] : List (Tensor Nat)).length = (["out"] : List String).length :=
  (C3_amended id id (mkSession demoNetD) [("data", ⟨[4, 3], List.replicate 12 1⟩)]
    ["out"] [] [⟨[4, 2], [10, 11]⟩] (by decide)).1

/-- Claim C4: after any finite sequence of Run calls on a freshly constructed adapter,
the capacity is at least the initial estimate and at least every batch size determined
by a call of the sequence that reached the reshape step. -/
theorem C4_capacity_after_runs [Inhabited α] (fwd propagate : Net α → Net α)
    (net : Net α) (calls : List (RunCall α)) :
    BatchSizeOf net ≤ (runSeq fwd propagate (mkSession net) calls).batch_size_ ∧
    ∀ b ∈ determinedBatches (mkSession net).input_blob_map_.length calls,
      b ≤ (runSeq fwd propagate (mkSession net) calls).batch_size_ := by
  obtain ⟨h1, h2⟩ := runSeq_inv fwd propagate calls (mkSession net)
  exact ⟨h1, h2⟩

/-- Witness for the C4 theorem at a concrete batch-4 call sequence. -/
theorem C4_witness :
    4 ∈ determinedBatches (mkSession demoNetD).input_blob_map_.length [demoCallD] ∧
    4 ≤ (runSeq id id (mkSession demoNetD) [demoCallD]).batch_size_ :=
  ⟨by decide, (C4_capacity_after_runs id id demoNetD [demoCallD]).2 4 (by decide)⟩

/-- Claim C5: Reshape with a requested batch at least 1 and different from the current
capacity returns success, sets the leading dimension to the requested batch for exactly
those input blobs whose shape has more than one dimension and a positive leading
dimension, leaves every other input blob untouched, applies the engine shape
propagation to the resized net, and records the requested batch as the new capacity;
Reshape with a requested batch below 1 returns an InvalidArgument error and changes
nothing. -/
theorem C5_reshape_behavior [Inhabited α] (propagate : Net α → Net α)
    (s : CaffeServingSession α) (b : Nat) :
    (s.Reshape propagate 0 = (.error .reshapeBatchTooSmall, s) ∧
      RunError.reshapeBatchTooSmall.code = .invalidArgument) ∧
    (1 ≤ b → s.batch_size_ ≠ b →
      (s.Reshape propagate b).1 = .ok () ∧
      (s.Reshape propagate b).2.batch_size_ = b ∧
      (s.Reshape propagate b).2.net_ = propagate (netReshapeInputs s.net_ b) ∧
      (∀ i : Nat,
        (i ∈ s.net_.input_blob_indices →
            1 < (s.net_.blobs.getD i default).shape.length →
            0 < (s.net_.blobs.getD i default).shape.headD 0 →
          ((netReshapeInputs s.net_ b).blobs.getD i default).shape
            = (b : Int) :: (s.net_.blobs.getD i default).shape.tail) ∧
        (i ∈ s.net_.input_blob_indices →
            ¬(1 < (s.net_.blobs.getD i default).shape.length ∧
              0 < (s.net_.blobs.getD i default).shape.headD 0) →
          (netReshapeInputs s.net_ b).blobs.getD i default = s.net_.blobs.getD i default) ∧
        (i ∉ s.net_.input_blob_indices →
          (netReshapeInputs s.net_ b).blobs.getD i default
            = s.net_.blobs.getD i default))) := by
  constructor
  · constructor
    · unfold CaffeServingSession.Reshape
      rw [if_pos rfl]
    · rfl
  · intro hb1 hne
    have hb0 : b ≠ 0 := by omega
    rw [Reshape_eq_grow propagate s b hb0 hne]
    refine ⟨rfl, rfl, rfl, ?_⟩
    intro i
    refine ⟨?_, ?_, ?_⟩
    · intro hmem hlen hpos
      rw [netReshapeInputs_getD s.net_ b hb0 i, if_pos hmem]
      exact reshapeStep_shape b _ ⟨hlen, hpos⟩
    · intro hmem hnq
      rw [netReshapeInputs_getD s.net_ b hb0 i, if_pos hmem]
      exact reshapeStep_of_not_qualifying b _ hnq
    · intro hmem
      rw [netReshapeInputs_getD s.net_ b hb0 i, if_neg hmem]

/-- Witness for the C5 theorem at a concrete grow from capacity 5 to 2. -/
theorem C5_witness :
    ((mkSession demoNetB).Reshape id 2).1 = .ok () ∧
    ((mkSession demoNetB).Reshape id 2).2.batch_size_ = 2 ∧
    ((netReshapeInputs (mkSession demoNetB).net_ 2).blobs.getD 0 default).shape = [2, 3] := by
  obtain ⟨w1, w2, w3, w4⟩ :=
    (C5_reshape_behavior id (mkSession demoNetB) 2).2 (by decide) (by decide)
  refine ⟨w1, w2, ?_⟩
  have hsh := (w4 0).1 (by decide) (by decide) (by decide)
  rw [hsh]
  decide

/-- Claim C6: Run always rejects with an InvalidArgument error, without executing the
forward pass: any request with a non-empty target-node list; any request whose input
count is zero or below the number of declared input bindings; and any request whose
first input tensor has rank below 2 or leading dimension below 1. -/
theorem C6_rejections [Inhabited α] (fwd propagate : Net α → Net α)
    (s : CaffeServingSession α) (inputs : List (String × Tensor α))
    (outs targets : List String) :
    (targets ≠ [] →
      ∃ e, (s.Run fwd propagate inputs outs targets).result = .error e ∧
        e.code = .invalidArgument ∧
        (s.Run fwd propagate inputs outs targets).forwardRan = false) ∧
    (inputs.length = 0 ∨ inputs.length < s.input_blob_map_.length →
      ∃ e, (s.Run fwd propagate inputs outs targets).result = .error e ∧
        e.code = .invalidArgument ∧
        (s.Run fwd propagate inputs outs targets).forwardRan = false) ∧
    (∀ (first : String × Tensor α) (rest : List (String × Tensor α)),
      inputs = first :: rest →
      first.2.dims.length < 2 ∨ first.2.dims.headD 0 < 1 →
      ∃ e, (s.Run fwd propagate inputs outs targets).result = .error e ∧
        e.code = .invalidArgument ∧
        (s.Run fwd propagate inputs outs targets).forwardRan = false) := by
  refine ⟨?_, ?_, ?_⟩
  · intro ht
    have h0 : 0 < targets.length := by
      cases targets with
      | nil => exact absurd rfl ht
      | cons x xs => simp
    obtain ⟨e, he⟩ := Run_rejects fwd propagate s inputs outs targets (Or.inl h0)
    exact ⟨e, by rw [he], rfl, by rw [he]⟩
  · intro h
    obtain ⟨e, he⟩ := Run_rejects fwd propagate s inputs outs targets (Or.inr (Or.inl h))
    exact ⟨e, by rw [he], rfl, by rw [he]⟩
  · intro first rest heq hcond
    have hhead : inputs.headD default = first := by rw [heq]; rfl
    have hc2 : (inputs.headD default).2.dims.length < 2 ∨
        (inputs.headD default).2.dims.headD 0 < 1 := by
      rw [hhead]
      exact hcond
    rcases hc2 with hc2 | hc2
    · obtain ⟨e, he⟩ := Run_rejects fwd propagate s inputs outs targets
        (Or.inr (Or.inr (Or.inl hc2)))
      exact ⟨e, by rw [he], rfl, by rw [he]⟩
    · obtain ⟨e, he⟩ := Run_rejects fwd propagate s inputs outs targets
        (Or.inr (Or.inr (Or.inr hc2)))
      exact ⟨e, by rw [he], rfl, by rw [he]⟩

/-- Witness for the C6 theorem at a concrete non-empty target-node request. -/
theorem C6_witness :
    ∃ e, ((mkSession demoNetA).Run id id [] [] ["node"]).result = .error e ∧
      e.code = .invalidArgument ∧
      ((mkSession demoNetA).Run id id [] [] ["node"]).forwardRan = false :=
  (C6_rejections id id (mkSession demoNetA) [] [] ["node"]).1 (by decide)

/-- Claim C7: for every request whose input names are all bound in the input binding
table, an input whose leading dimension differs from the leading dimension of the first
input makes Run return an InvalidArgument error. -/
theorem C7_batch_mismatch [Inhabited α] (fwd propagate : Net α → Net α)
    (s : CaffeServingSession α) (inputs : List (String × Tensor α))
    (outs targets : List String)
    (hall : ∀ p ∈ inputs, (mapFind s.input_blob_map_ p.1).isSome)
    (hmis : ∃ p ∈ inputs, p.2.dims.headD 0 ≠ (inputs.headD default).2.dims.headD 0) :
    ∃ e, (s.Run fwd propagate inputs outs targets).result = .error e ∧
      e.code = .invalidArgument := by
  by_cases h1 : 0 < targets.length
  · obtain ⟨e, he⟩ := Run_rejects fwd propagate s inputs outs targets (Or.inl h1)
    exact ⟨e, by rw [he], rfl⟩
  by_cases h2 : inputs.length = 0 ∨ inputs.length < s.input_blob_map_.length
  · obtain ⟨e, he⟩ := Run_rejects fwd propagate s inputs outs targets (Or.inr (Or.inl h2))
    exact ⟨e, by rw [he], rfl⟩
  by_cases h3 : (inputs.headD default).2.dims.length < 2
  · obtain ⟨e, he⟩ := Run_rejects fwd propagate s inputs outs targets
      (Or.inr (Or.inr (Or.inl h3)))
    exact ⟨e, by rw [he], rfl⟩
  by_cases h4 : (inputs.headD default).2.dims.headD 0 < 1
  · obtain ⟨e, he⟩ := Run_rejects fwd propagate s inputs outs targets
      (Or.inr (Or.inr (Or.inr h4)))
    exact ⟨e, by rw [he], rfl⟩
  rw [Run_eq_validated fwd propagate s inputs outs targets h1 h2 h3 h4]
  have hbne : (inputs.headD default).2.dims.headD 0 ≠ 0 := by omega
  by_cases h5 : s.batch_size_ < (inputs.headD default).2.dims.headD 0
  · have hok := Reshape_ok_of_ne_zero propagate s _ hbne
    have hmm := Reshape_maps propagate s ((inputs.headD default).2.dims.headD 0)
    rcases hr : s.Reshape propagate ((inputs.headD default).2.dims.headD 0) with ⟨res, s1⟩
    rw [hr] at hok hmm
    have hres : res = .ok () := hok
    subst hres
    rw [runValidated_eq_grow fwd propagate s inputs outs _ s1 () h5 hr]
    have hall1 : ∀ p ∈ inputs, (mapFind s1.input_blob_map_ p.1).isSome := by
      intro p hp
      rw [hmm.1]
      exact hall p hp
    obtain ⟨e, he⟩ := copyInputs_mismatch_error s1.input_blob_map_
      ((inputs.headD default).2.dims.headD 0) inputs s1.net_.blobs hall1 hmis
    rcases hc : copyInputs s1.input_blob_map_ ((inputs.headD default).2.dims.headD 0)
        inputs s1.net_.blobs with ⟨blobs1, r⟩
    rw [hc] at he
    have hre : r = some e := he
    subst hre
    rw [runCopyStage_eq_error fwd s1 inputs outs _ blobs1 e hc]
    exact ⟨e, rfl, rfl⟩
  · rw [runValidated_eq_noGrow fwd propagate s inputs outs _ h5]
    obtain ⟨e, he⟩ := copyInputs_mismatch_error s.input_blob_map_
      ((inputs.headD default).2.dims.headD 0) inputs s.net_.blobs hall hmis
    rcases hc : copyInputs s.input_blob_map_ ((inputs.headD default).2.dims.headD 0)
        inputs s.net_.blobs with ⟨blobs1, r⟩
    rw [hc] at he
    have hre : r = some e := he
    subst hre
    rw [runCopyStage_eq_error fwd s inputs outs _ blobs1 e hc]
    exact ⟨e, rfl, rfl⟩

/-- Witness for the C7 theorem: first input batch 4, second input batch 5. -/
theorem C7_witness :
    ∃ e, ((mkSession demoNetA).Run id id
        [("data", ⟨[4, 2], List.replicate 8 1⟩), ("data", ⟨[5, 2], List.replicate 10 2⟩)]
        [] []).result = .error e ∧ e.code = .invalidArgument :=
  C7_batch_mismatch id id (mkSession demoNetA)
    [("data", ⟨[4, 2], List.replicate 8 1⟩), ("data", ⟨[5, 2], List.replicate 10 2⟩)]
    [] [] (by decide)
    ⟨("data", ⟨[5, 2], List.replicate 10 2⟩), by decide, by decide⟩

/-- Claim C8: the initial batch-capacity estimate equals the maximum, over all declared
input blobs whose shape has more than one dimension and a positive leading dimension,
of that leading dimension, and equals 1 when no input blob yields a candidate; the
session constructor seeds the capacity with this estimate. -/
theorem C8_initial_estimate (net : Net α) :
    BatchSizeOf net = ((candidatesOf net).max?).getD 1 ∧
    (candidatesOf net = [] → BatchSizeOf net = 1) ∧
    (∀ c ∈ candidatesOf net, c ≤ BatchSizeOf net) ∧
    (mkSession net).batch_size_ = BatchSizeOf net := by
  refine ⟨?_, ?_, ?_, rfl⟩
  · rw [BatchSizeOf_eq_foldl]
    exact foldl_max_one_eq _ (candidatesOf_pos net)
  · intro h
    rw [BatchSizeOf_eq_foldl, h]
    rfl
  · intro c hc
    rw [BatchSizeOf_eq_foldl]
    exact le_foldl_max _ _ _ hc

/-- Witness for the C8 theorem at a concrete net with candidate 5. -/
theorem C8_witness :
    BatchSizeOf demoNetB = ((candidatesOf demoNetB).max?).getD 1 ∧
    (5 ∈ candidatesOf demoNetB → 5 ≤ BatchSizeOf demoNetB) ∧
    5 ∈ candidatesOf demoNetB :=
  ⟨(C8_initial_estimate demoNetB).1,
   fun h => (C8_initial_estimate demoNetB).2.2.1 5 h, by decide⟩

/-- Claim C9: calling Reshape twice in a row with the same argument c at least 1 leaves
the whole adapter state after the second call identical to the state after the first
call, and the second call returns success. -/
theorem C9_reshape_idempotent [Inhabited α] (propagate : Net α → Net α)
    (s : CaffeServingSession α) (c : Nat) (hc : 1 ≤ c) :
    ((s.Reshape propagate c).2.Reshape propagate c).2 = (s.Reshape propagate c).2 ∧
    ((s.Reshape propagate c).2.Reshape propagate c).1 = .ok () := by
  have hc0 : c ≠ 0 := by omega
  have hb : (s.Reshape propagate c).2.batch_size_ = c := Reshape_batch_eq propagate s c hc0
  set r1 := (s.Reshape propagate c).2 with hr1
  have key : r1.Reshape propagate c = (.ok (), r1) := by
    unfold CaffeServingSession.Reshape
    rw [if_neg hc0, if_pos hb]
  rw [key]
  exact ⟨rfl, rfl⟩

/-- Witness for the C9 theorem at a concrete repeated Reshape. -/
theorem C9_witness :
    (((mkSession demoNetB).Reshape id 2).2.Reshape id 2).2
      = ((mkSession demoNetB).Reshape id 2).2 ∧
    (((mkSession demoNetB).Reshape id 2).2.Reshape id 2).1 = .ok () :=
  C9_reshape_idempotent id (mkSession demoNetB) 2 (by decide)

/-- Claim C10: when the trained-parameter file cannot be read or parsed, the
weight-loading operation returns an InvalidArgument error and leaves the session, hence
every existing buffer content of the network, unchanged: no parameter copy occurs. -/
theorem C10_weight_load_failure (copyLayers : Net α → π → Net α)
    (s : CaffeServingSession α) (file : String) :
    CaffeServingSession.CopyTrainedLayersFromBinaryProto (π := π) none copyLayers s file
      = (.error (.weightLoadFailed file), s) ∧
    (RunError.weightLoadFailed file).code = .invalidArgument :=
  ⟨rfl, rfl⟩

end CaffeServing
